import Mathlib

/-!
Shallow embedding of the ams scheduling server.

The embedded code lives in `src/server/routes/appointments.ts` (appointments
router, `bookedSlots` index) and the organizations router
(`src/unnamed/part_000`: `generateTimeSlots`, slot cache, settings, locked
days, the `/slots/:date`, `/slots/status`, `/settings` and `/locked-days`
handlers).

Modelling conventions:
* JS `Record<string, T>` objects are modelled as insertion-ordered
  association lists `List (String × T)` with `lookupM` / `insertM` /
  `eraseM` mirroring property read, property assignment and `delete`.
* JS `Date` values are modelled at day granularity by `CalDate`
  (year/month/day); `new Date("yyyy-MM-dd")` is `parseDateYMD`,
  `format(d, "yyyy-MM-dd")` is `formatYMD`, `format(d, "EEEE")` is
  `weekdayName` (Sakamoto's Gregorian weekday algorithm; the timezone of the
  server process is taken to be UTC).
* Times of day are minutes since midnight; `parse(s, "HH:mm", ref)` is
  `parseHM`, `format(t, "HH:mm")` is `formatHM`.
* `uuidv4()` is modelled as drawing a fresh identifier from a supply: the
  server state carries a counter `uuidSeed` and the n-th draw is the string
  `uuidStr n`; successive draws are distinct, which is the practical
  guarantee of v4 UUIDs.  `Math.random()` for the appointment number is
  drawn from the same supply.
* Code that throws (date-fns `isWithinInterval` on an invalid interval,
  property access on `undefined`) is modelled with `Option`/error results:
  the route's `catch` turns such a throw into a 500 response, and any state
  mutations performed before the throw persist.
-/

namespace AMS

/-- Two-digit zero padding, as date-fns `format` produces for HH, mm, MM, dd. -/
def pad2 (n : Nat) : String :=
  if n < 10 then ("0" ++ toString n) else (toString n)

/-- Four-digit zero padding for the year of `format(d, "yyyy-MM-dd")`. -/
def pad4 (n : Nat) : String :=
  if n < 10 then ("000" ++ toString n)
  else if n < 100 then ("00" ++ toString n)
  else if n < 1000 then ("0" ++ toString n)
  else (toString n)

/-- Render a time-of-day given in minutes since midnight as an "HH:mm" string:
`format(t, "HH:mm")` on the date values built inside `generateTimeSlots`. -/
def formatHM (m : Nat) : String :=
  pad2 ((m / 60) % 24) ++ ":" ++ pad2 (m % 60)

def digitVal (c : Char) : Nat := c.toNat - ('0').toNat

/-- The date-fns call `parse(s, "HH:mm", refDate)`, as minutes since midnight.
A malformed string gives `none`: the source call yields an Invalid Date and
the subsequent `isWithinInterval` call throws on it. -/
def parseHM (s : String) : Option Nat :=
  match s.data with
  | [h1, h2, ':', m1, m2] =>
    if h1.isDigit && h2.isDigit && m1.isDigit && m2.isDigit then
      let h := digitVal h1 * 10 + digitVal h2
      let m := digitVal m1 * 10 + digitVal m2
      if h ≤ 23 && m ≤ 59 then some (h * 60 + m) else none
    else none
  | [h1, ':', m1, m2] =>
    if h1.isDigit && m1.isDigit && m2.isDigit then
      let m := digitVal m1 * 10 + digitVal m2
      if m ≤ 59 then some (digitVal h1 * 60 + m) else none
    else none
  | _ => none

/-- Calendar date (the day-granularity content of a JS `Date`). -/
structure CalDate where
  year : Nat
  month : Nat
  day : Nat
deriving DecidableEq, Repr

def isLeap (y : Nat) : Bool := (y % 4 == 0 && !(y % 100 == 0)) || y % 400 == 0

def daysInMonth (y m : Nat) : Nat :=
  if m == 2 then (if isLeap y then 29 else 28)
  else if m == 4 || m == 6 || m == 9 || m == 11 then 30
  else 31

/-- The value of `new Date(s)` on an ISO "yyyy-MM-dd" string (the format the client and the
routes exchange).  Out-of-range components give an Invalid Date, hence `none`. -/
def parseDateYMD (s : String) : Option CalDate :=
  match s.data with
  | [y1, y2, y3, y4, '-', mo1, mo2, '-', d1, d2] =>
    if y1.isDigit && y2.isDigit && y3.isDigit && y4.isDigit &&
       mo1.isDigit && mo2.isDigit && d1.isDigit && d2.isDigit then
      let y := digitVal y1 * 1000 + digitVal y2 * 100 + digitVal y3 * 10 + digitVal y4
      let m := digitVal mo1 * 10 + digitVal mo2
      let d := digitVal d1 * 10 + digitVal d2
      if 1 ≤ m && m ≤ 12 && 1 ≤ d && d ≤ daysInMonth y m then some ⟨y, m, d⟩ else none
    else none
  | _ => none

/-- The string `format(d, "yyyy-MM-dd")`. -/
def formatYMD (d : CalDate) : String :=
  pad4 d.year ++ "-" ++ pad2 d.month ++ "-" ++ pad2 d.day

/-- Month code table of Sakamoto's weekday algorithm. -/
def monthCode (m : Nat) : Nat :=
  match m with
  | 1 => 0 | 2 => 3 | 3 => 2 | 4 => 5 | 5 => 0 | 6 => 3
  | 7 => 5 | 8 => 1 | 9 => 4 | 10 => 6 | 11 => 2 | _ => 4

/-- Weekday of a Gregorian calendar date, 0 = Sunday (as JS `getDay`). -/
def weekdayIndex (d : CalDate) : Nat :=
  let y := if d.month < 3 then d.year - 1 else d.year
  (y + y / 4 - y / 100 + y / 400 + monthCode d.month + d.day) % 7

/-- The value `format(d, "EEEE")`: the English weekday name. -/
def weekdayName (d : CalDate) : String :=
  match weekdayIndex d with
  | 0 => "Sunday" | 1 => "Monday" | 2 => "Tuesday" | 3 => "Wednesday"
  | 4 => "Thursday" | 5 => "Friday" | _ => "Saturday"

def dateLE (a b : CalDate) : Bool :=
  a.year < b.year ||
    (a.year == b.year && (a.month < b.month ||
      (a.month == b.month && a.day ≤ b.day)))

def nextDay (d : CalDate) : CalDate :=
  if d.day < daysInMonth d.year d.month then { d with day := d.day + 1 }
  else if d.month < 12 then { year := d.year, month := d.month + 1, day := 1 }
  else { year := d.year + 1, month := 1, day := 1 }

def eachDayAux : Nat → CalDate → CalDate → List CalDate
  | 0, _, _ => []
  | fuel + 1, cur, last =>
    if dateLE cur last then cur :: eachDayAux fuel (nextDay cur) last else []

/-- date-fns `eachDayOfInterval`: the list of days from `a` to `b` inclusive.
(For `a` past `b` the source throws and the route answers 500; the model
returns the empty list, which no claim exercises.) -/
def eachDayOfInterval (a b : CalDate) : List CalDate :=
  eachDayAux ((b.year + 1 - a.year) * 366 + 1) a b

/-! ### Data model (src/server/types) -/
/-- One business-hours row: `{ day, start, end, isOpen }`. -/
structure BusinessHours where
  day : String
  start : String
  «end» : String
  isOpen : Bool
deriving DecidableEq, Repr

/-- Source type `OrganizationSettings`: businessHours, slotDuration, breakBetweenSlots
(minutes; both are validated non-negative numbers in the source, so `Nat`). -/
structure OrganizationSettings where
  businessHours : List BusinessHours
  slotDuration : Nat
  breakBetweenSlots : Nat
deriving DecidableEq, Repr

/-- Source type `TimeSlot`: `{ id, start, end, isAvailable }`. -/
structure TimeSlot where
  id : String
  start : String
  «end» : String
  isAvailable : Bool
deriving DecidableEq, Repr

/-- A bare `{ start, end }` pair, as stored in the booked-slots index and in
an appointment's `timeSlot` field. -/
structure TimeSlotRange where
  start : String
  «end» : String
deriving DecidableEq, Repr

/-- One entry of the date-keyed `bookedSlots` index. -/
structure BookedEntry where
  organizationId : String
  appointmentId : String
  timeSlots : List TimeSlotRange
deriving DecidableEq, Repr

inductive AptStatus where
  | pending | confirmed | cancelled
deriving DecidableEq, Repr

/-- Source type `Appointment`.  The stored `Date` is modelled by its normalized
"yyyy-MM-dd" string (the only use the server makes of it is
`format(apt.date, "yyyy-MM-dd")`); `createdAt` (wall clock) is dropped. -/
structure Appointment where
  id : String
  organizationId : String
  organizationName : String
  individualId : String
  individualName : String
  date : String
  timeSlot : TimeSlotRange
  status : AptStatus
  notes : Option String
  number : String
deriving DecidableEq, Repr

/-- The authenticated requester (`req.user`). -/
structure User where
  id : String
  name : String
  role : String
deriving DecidableEq, Repr

/-! ### Association-list model of JS record objects -/
def lookupM {α : Type} : List (String × α) → String → Option α
  | [], _ => none
  | p :: t, k => if p.1 == k then some p.2 else lookupM t k

def insertM {α : Type} : List (String × α) → String → α → List (String × α)
  | [], k, v => [(k, v)]
  | p :: t, k, v => if p.1 == k then (k, v) :: t else p :: insertM t k v

def eraseM {α : Type} (m : List (String × α)) (k : String) : List (String × α) :=
  m.filter (fun p => !(p.1 == k))

/-! ### Slot generation: `generateTimeSlots` of the organizations router -/
/-- The n-th identifier drawn from the fresh-uuid supply (`uuidv4()`). -/
def uuidStr (n : Nat) : String := "uuid-" ++ toString n

/-- The slot object the generator loop pushes: starts at minute `cur`, ends
`dur` minutes later, id drawn from the supply at `seed`, initially available. -/
def mkSlot (seed cur dur : Nat) : TimeSlot :=
  { id := uuidStr seed
    start := formatHM cur
    «end» := formatHM (cur + dur)
    isAvailable := true }

/-- The `while (isWithinInterval(currentTime, ...))` loop of
`generateTimeSlots`: `startM`/`endM` are the parsed open/close minutes,
`cur` the current minute, `seed` the uuid supply.  Each pass computes
`slotEnd = cur + dur`, pushes a slot when `slotEnd` lies within
`[startM, endM]` (date-fns `isWithinInterval` is inclusive on both ends) and
advances `currentTime` to `slotEnd + brk`.  The source loop has no fuel; the
callers below pass fuel `endM + 1`, which lemma `genLoop_closed` shows is
enough whenever `0 < dur + brk` (with `dur + brk = 0` the source loop never
terminates). -/
def genLoop (startM endM dur brk : Nat) : Nat → Nat → Nat → List TimeSlot
  | _, _, 0 => []
  | seed, cur, fuel + 1 =>
    if startM ≤ cur ∧ cur ≤ endM then
      if startM ≤ cur + dur ∧ cur + dur ≤ endM then
        mkSlot seed cur dur :: genLoop startM endM dur brk (seed + 1) (cur + dur + brk) fuel
      else genLoop startM endM dur brk seed (cur + dur + brk) fuel
    else []

/-- Source function `generateTimeSlots(date, orgSettings)`.  The value `none` models a throw inside the
function (invalid date string, malformed business-hour time, or an open time
past the close time, all of which make date-fns throw and the calling route
answer 500).  The closed/missing-day check precedes the time parsing, exactly
as in the source. -/
def generateTimeSlots (date : String) (s : OrganizationSettings) (seed : Nat) :
    Option (List TimeSlot) :=
  match parseDateYMD date with
  | none => none
  | some pd =>
    match s.businessHours.find? (fun h => h.day == weekdayName pd) with
    | none => some []
    | some h =>
      if h.isOpen then
        match parseHM h.start, parseHM h.«end» with
        | some o, some c =>
          if o ≤ c then
            some (genLoop o c s.slotDuration s.breakBetweenSlots seed o (c + 1))
          else none
        | _, _ => none
      else some []

/-- The default business hours installed by `initializeOrganizationSettings`
and on registration. -/
def defaultBusinessHours : List BusinessHours :=
  [ { day := "Monday", start := "09:00", «end» := "17:00", isOpen := true },
    { day := "Tuesday", start := "09:00", «end» := "17:00", isOpen := true },
    { day := "Wednesday", start := "09:00", «end» := "17:00", isOpen := true },
    { day := "Thursday", start := "09:00", «end» := "17:00", isOpen := true },
    { day := "Friday", start := "09:00", «end» := "17:00", isOpen := true },
    { day := "Saturday", start := "09:00", «end» := "13:00", isOpen := false },
    { day := "Sunday", start := "09:00", «end» := "13:00", isOpen := false } ]

def defaultSettings : OrganizationSettings :=
  { businessHours := defaultBusinessHours, slotDuration := 30, breakBetweenSlots := 0 }

/-- Number of slots the loop emits from minute `cur`: the count of indices
`i` with `cur + i * step + dur ≤ endM`, in closed form. -/
def slotCount (cur endM dur step : Nat) : Nat :=
  if cur + dur ≤ endM then (endM - dur - cur) / step + 1 else 0

/-- Projection of a slot to its observable fields other than the freshly
generated id. -/
def projSlot (t : TimeSlot) : String × String × Bool := (t.start, t.«end», t.isAvailable)

/-! ### Server state and routes -/
/-- Request body of POST /api/appointments. -/
structure CreateInput where
  organizationId : String
  date : String
  timeSlot : TimeSlotRange
  notes : Option String
deriving DecidableEq, Repr

/-- The time regex of the create-appointment schema:
one- or two-digit hour 0-23, colon, minutes 00-59. -/
def timeRe (s : String) : Bool :=
  match s.data with
  | [h1, ':', m1, m2] =>
    h1.isDigit && ('0' ≤ m1 && m1 ≤ '5') && m2.isDigit
  | [h1, h2, ':', m1, m2] =>
    (((h1 == '0' || h1 == '1') && h2.isDigit) ||
      (h1 == '2' && ('0' ≤ h2 && h2 ≤ '3'))) &&
    ('0' ≤ m1 && m1 ≤ '5') && m2.isDigit
  | _ => false

/-- The zod validation of POST /api/appointments: non-empty organizationId,
parseable date, HH:mm time strings, notes at most 500 characters. -/
def validCreate (b : CreateInput) : Bool :=
  !(b.organizationId == "") && (parseDateYMD b.date).isSome &&
  timeRe b.timeSlot.start && timeRe b.timeSlot.«end» &&
  (match b.notes with
   | none => true
   | some n => n.length ≤ 500)

/-- The in-memory stores shared by the routers (`settings`, `timeSlots`,
`lockedDays` of the organizations router; `appointments`, `bookedSlots` of
the appointments router) together with the fresh-uuid supply. -/
structure ServerState where
  settings : List (String × OrganizationSettings)
  timeSlots : List (String × List (String × List TimeSlot))
  lockedDays : List (String × List String)
  appointments : List Appointment
  bookedSlots : List (String × BookedEntry)
  uuidSeed : Nat
deriving DecidableEq, Repr

/-- The property read `timeSlots[org]?.[date]`. -/
def cacheLookup (st : ServerState) (org date : String) : Option (List TimeSlot) :=
  (lookupM st.timeSlots org).bind (fun m => lookupM m date)

/-- The property write `timeSlots[org][date] = slots`.  The routes assign only after ensuring
`timeSlots[org]` exists; the model defaults a missing outer entry to the
empty map. -/
def cacheInsert (st : ServerState) (org date : String) (slots : List TimeSlot) :
    ServerState :=
  { st with timeSlots := insertM st.timeSlots org (insertM ((lookupM st.timeSlots org).getD []) date slots) }

/-- Source function `initializeOrganizationSettings`: default settings, no
locked days, empty slot cache. -/
def initOrganizationSettings (st : ServerState) (orgId : String) : ServerState :=
  { st with
    settings := insertM st.settings orgId defaultSettings
    lockedDays := insertM st.lockedDays orgId []
    timeSlots := insertM st.timeSlots orgId [] }

/-- The booked-slot store of the create-appointment handler: create the
date's entry if missing (recording this appointment's organization and id)
and push the (start, end) pair. -/
def recordBookedSlot (bs : List (String × BookedEntry)) (dateStr orgId aptId : String)
    (ts : TimeSlotRange) : List (String × BookedEntry) :=
  let entry : BookedEntry := match lookupM bs dateStr with
    | none => { organizationId := orgId, appointmentId := aptId, timeSlots := [] }
    | some b => b
  insertM bs dateStr { entry with timeSlots := entry.timeSlots ++ [ts] }

inductive CreateResult where
  | err (status : Nat) (message : String)
  | created (apt : Appointment)
deriving DecidableEq, Repr

/-- POST /api/appointments: role check, zod validation, duplicate check on
the date-keyed booked-slots index, then append the appointment and record
its slot.  The date key is `format(new Date(body.date), "yyyy-MM-dd")`. -/
def createAppointment (st : ServerState) (user : User) (body : CreateInput) :
    ServerState × CreateResult :=
  if !(user.role == "individual") then (st, .err 401 ("Unauthorized"))
  else if !(validCreate body) then (st, .err 400 ("Invalid data"))
  else
    match parseDateYMD body.date with
    | none => (st, .err 400 ("Invalid data"))
    | some pd =>
      let dateStr := formatYMD pd
      let existing := (lookupM st.bookedSlots dateStr).bind
        (fun b => b.timeSlots.find?
          (fun sl => sl.start == body.timeSlot.start && sl.«end» == body.timeSlot.«end»))
      if existing.isSome then (st, .err 400 ("This time slot is already booked"))
      else
        let aptNumber := toString (100000 + st.uuidSeed % 900000)
        let apt : Appointment :=
          { id := uuidStr (st.uuidSeed + 1)
            organizationId := body.organizationId
            organizationName := "Organization Name"
            individualId := user.id
            individualName := user.name
            date := dateStr
            timeSlot := body.timeSlot
            status := .pending
            notes := body.notes
            number := aptNumber }
        ({ st with
            appointments := st.appointments ++ [apt]
            bookedSlots := recordBookedSlot st.bookedSlots dateStr apt.organizationId
              apt.id body.timeSlot
            uuidSeed := st.uuidSeed + 2 }, .created apt)

def modifyFirst {α : Type} : List α → (α → Bool) → (α → α) → List α
  | [], _, _ => []
  | x :: xs, p, f => if p x then f x :: xs else x :: modifyFirst xs p f

/-- The booked-slot removal of the cancel handlers: filter the date's entry
by START only, deleting the entry when it becomes empty. -/
def removeBookedByStart (bs : List (String × BookedEntry)) (dateStr start : String) :
    List (String × BookedEntry) :=
  match lookupM bs dateStr with
  | none => bs
  | some b =>
    let ts := b.timeSlots.filter (fun sl => !(sl.start == start))
    if ts.length == 0 then eraseM bs dateStr
    else insertM bs dateStr { b with timeSlots := ts }

inductive CancelResult where
  | err (status : Nat) (message : String)
  | ok (apt : Appointment)
deriving DecidableEq, Repr

/-- POST /api/appointments/:id/cancel (for individuals): find the caller's
appointment, reject if already cancelled, set status to cancelled and remove
the booked slot. -/
def cancelAppointment (st : ServerState) (user : User) (id : String) :
    ServerState × CancelResult :=
  if !(user.role == "individual") then (st, .err 401 ("Unauthorized"))
  else
    match st.appointments.find? (fun a => a.id == id && a.individualId == user.id) with
    | none => (st, .err 404 ("Appointment not found"))
    | some apt =>
      if apt.status == AptStatus.cancelled then
        (st, .err 400 ("Appointment is already cancelled"))
      else
        ({ st with
            appointments := modifyFirst st.appointments
              (fun a => a.id == id && a.individualId == user.id)
              (fun a => { a with status := AptStatus.cancelled })
            bookedSlots := removeBookedByStart st.bookedSlots apt.date apt.timeSlot.start },
          .ok { apt with status := AptStatus.cancelled })

/-- The zod bounds of PUT /settings: slotDuration within 15..120,
breakBetweenSlots within 0..60 (the lower bound is inherent to `Nat`). -/
def validSettings (s : OrganizationSettings) : Bool :=
  15 ≤ s.slotDuration && s.slotDuration ≤ 120 && s.breakBetweenSlots ≤ 60

inductive PutSettingsResult where
  | err (status : Nat) (message : String)
  | updated (s : OrganizationSettings)
deriving DecidableEq, Repr

/-- PUT /api/organizations/settings for the authenticated organization:
validate, initialize the org's stores if absent, replace the settings (the
source spreads the old settings under the validated data, which covers every
field, so the result is the validated body) and clear the org's slot cache. -/
def putSettings (st : ServerState) (orgId : String) (body : OrganizationSettings) :
    ServerState × PutSettingsResult :=
  if validSettings body then
    let st1 := if (lookupM st.settings orgId).isNone
      then initOrganizationSettings st orgId else st
    ({ st1 with
        settings := insertM st1.settings orgId body
        timeSlots := insertM st1.timeSlots orgId [] }, .updated body)
  else (st, .err 400 ("Invalid data"))

/-- PUT /api/organizations/locked-days/:date.  `none` models the 500 answer
when `lockedDays[orgId]` is undefined (property access on undefined throws
before any mutation). -/
def lockDay (st : ServerState) (orgId date : String) (isLocked : Bool) :
    ServerState × Option (String × Bool) :=
  match lookupM st.lockedDays orgId with
  | none => (st, none)
  | some ld =>
    let ld1 := if isLocked then (if ld.contains date then ld else ld ++ [date])
      else ld.filter (fun d => !(d == date))
    ({ st with lockedDays := insertM st.lockedDays orgId ld1 }, some (date, isLocked))

/-- The availability merge of GET /slots/:date:
`{...slot, isAvailable: isBooked ? false : slot.isAvailable}`. -/
def markRead (booked : List TimeSlotRange) (sl : TimeSlot) : TimeSlot :=
  { sl with isAvailable :=
      if booked.any (fun b => b.start == sl.start && b.«end» == sl.«end») then false
      else sl.isAvailable }

/-- The expression `timeSlots[orgId]?.[date] || generateTimeSlots(date, settings[orgId])`
(a present cache entry is used even when it is an empty array — arrays are
truthy).  `none` models the throw (500) when the cache misses and
`settings[orgId]` is undefined, or when generation itself throws. -/
def baseSlots (st : ServerState) (orgId date : String) : Option (List TimeSlot) :=
  match cacheLookup st orgId date with
  | some s => some s
  | none =>
    match lookupM st.settings orgId with
    | none => none
    | some os => generateTimeSlots date os st.uuidSeed

/-- GET /api/organizations/slots/:date: the served `(slots, isLocked)` pair.
This route writes nothing back to the state. -/
def getSlotsDate (st : ServerState) (orgId date : String) :
    Option (List TimeSlot × Bool) :=
  match baseSlots st orgId date, lookupM st.lockedDays orgId with
  | some slots0, some ld =>
    let slots := match lookupM st.bookedSlots date with
      | none => slots0
      | some b => slots0.map (markRead b.timeSlots)
    some (slots, ld.contains date)
  | _, _ => none

/-- One value of the per-day status map served by GET /slots/status. -/
structure DayStatus where
  isLocked : Bool
  availableSlots : Nat
  totalSlots : Nat
deriving DecidableEq, Repr

/-- The in-place availability write of GET /slots/status:
`if (isBooked) slot.isAvailable = false` — nothing is ever written for an
unbooked slot, so a false flag is never restored to true. -/
def markStatus (booked : List TimeSlotRange) (sl : TimeSlot) : TimeSlot :=
  if booked.any (fun b => b.start == sl.start && b.«end» == sl.«end») then
    { sl with isAvailable := false }
  else sl

/-- The booked-slot pass of GET /slots/status over one day's cached slots:
a no-op when the date has no booked-slots entry. -/
def markDay (bs : List (String × BookedEntry)) (dateStr : String)
    (slots : List TimeSlot) : List TimeSlot :=
  match lookupM bs dateStr with
  | none => slots
  | some b => slots.map (markStatus b.timeSlots)

/-- The `if (!timeSlots[orgId][dateStr]) timeSlots[orgId][dateStr] =
generateTimeSlots(...)` step of GET /slots/status: return the cached day
slots, or generate and store them (advancing the uuid supply).  `none` models
the throw paths: `settings[orgId]` undefined or generation throwing. -/
def ensureDaySlots (orgId dateStr : String) (st : ServerState) :
    Option (ServerState × List TimeSlot) :=
  match cacheLookup st orgId dateStr with
  | some s => some (st, s)
  | none =>
    match lookupM st.settings orgId with
    | none => none
    | some os =>
      match generateTimeSlots dateStr os st.uuidSeed with
      | none => none
      | some gen =>
        some ({ cacheInsert st orgId dateStr gen with
                 uuidSeed := st.uuidSeed + gen.length }, gen)

/-- The `days.forEach` body of GET /slots/status: per day, generate and store
the slots if the cache misses, write the booked flags back into the cached
array, then append the day's status.  `none` models the throw paths (missing
settings during generation, malformed hours, missing lockedDays entry);
state mutations made before a throw persist, since the route-level catch
only shapes the response. -/
def statusLoop (orgId : String) :
    ServerState → List CalDate → List (String × DayStatus) →
      ServerState × Option (List (String × DayStatus))
  | st, [], acc => (st, some acc)
  | st, day :: rest, acc =>
    let dateStr := formatYMD day
    match ensureDaySlots orgId dateStr st with
    | none => (st, none)
    | some (st1, daySlots0) =>
      let daySlots := markDay st1.bookedSlots dateStr daySlots0
      let st2 := cacheInsert st1 orgId dateStr daySlots
      match lookupM st2.lockedDays orgId with
      | none => (st2, none)
      | some ld =>
        statusLoop orgId st2 rest (acc ++ [(dateStr,
          { isLocked := ld.contains dateStr
            availableSlots := (daySlots.filter (fun sl => sl.isAvailable)).length
            totalSlots := daySlots.length })])

/-- GET /api/organizations/slots/status over the day range `[startD, endD]`:
ensure the org's settings and slot-cache entries exist, then fold over the
days. -/
def slotsStatus (st : ServerState) (orgId : String) (startD endD : CalDate) :
    ServerState × Option (List (String × DayStatus)) :=
  let st1 := if (lookupM st.settings orgId).isNone
    then initOrganizationSettings st orgId else st
  let st2 := if (lookupM st1.timeSlots orgId).isNone
    then { st1 with timeSlots := insertM st1.timeSlots orgId [] } else st1
  statusLoop orgId st2 (eachDayOfInterval startD endD) []

/-- The pristine server state: empty stores, uuid supply at 0. -/
def emptyState : ServerState :=
  { settings := []
    timeSlots := []
    lockedDays := []
    appointments := []
    bookedSlots := []
    uuidSeed := 0 }

/-- Slot `y` is `x` with possibly degraded availability: same id, start and end,
and available only if `x` was. -/
def slotWeaker (x y : TimeSlot) : Prop :=
  y.id = x.id ∧ y.start = x.start ∧ y.«end» = x.«end» ∧
    (y.isAvailable = true → x.isAvailable = true)

/-- Pointwise `slotWeaker` over two slot lists of equal length. -/
def slotsMono (a b : List TimeSlot) : Prop :=
  b.length = a.length ∧
    ∀ i x y, a.get? i = some x → b.get? i = some y → slotWeaker x y

/-- Number of available slots, as counted by the status route. -/
def countAvail (l : List TimeSlot) : Nat :=
  (l.filter (fun sl => sl.isAvailable)).length

/-- The availability counts of a reported day entry, forgetting isLocked. -/
def dayCounts (e : String × DayStatus) : String × Nat × Nat :=
  (e.1, e.2.availableSlots, e.2.totalSlots)

/-- Concrete state for the C9 witness: org1 with default settings, a cached
09:00-09:30 slot already marked unavailable, and an empty booked-slots index
(the booking has been removed). -/
def c9State : ServerState :=
  { settings := [("org1", defaultSettings)]
    timeSlots := [("org1", [("2026-10-12",
      [{ id := "uuid-0", start := "09:00", «end» := "09:30", isAvailable := false }])])]
    lockedDays := [("org1", [])]
    appointments := []
    bookedSlots := []
    uuidSeed := 0 }

theorem lookupM_insertM_self {α : Type} (m : List (String × α)) (k : String) (v : α) :
    lookupM (insertM m k v) k = some v := by
  induction m with
  | nil => simp [insertM, lookupM]
  | cons p t ih =>
    by_cases h : p.1 = k
    · simp [insertM, lookupM, h]
    · simpa [insertM, lookupM, h] using ih

theorem lookupM_insertM_ne {α : Type} (m : List (String × α)) (k k' : String) (v : α)
    (h : k' ≠ k) : lookupM (insertM m k v) k' = lookupM m k' := by
  have h' : ¬(k = k') := fun e => h e.symm
  induction m with
  | nil => simp [insertM, lookupM, h']
  | cons p t ih =>
    by_cases hp : p.1 = k
    · have hp' : ¬(p.1 = k') := fun e => h' (hp ▸ e)
      simp [insertM, lookupM, hp, hp', h']
    · by_cases hp' : p.1 = k'
      · simp [insertM, lookupM, hp, hp', h]
      · simpa [insertM, lookupM, hp, hp', h] using ih

theorem lookupM_eraseM_self {α : Type} (m : List (String × α)) (k : String) :
    lookupM (eraseM m k) k = none := by
  induction m with
  | nil => simp [eraseM, lookupM]
  | cons p t ih =>
    by_cases hp : p.1 = k
    · simpa [eraseM, lookupM, List.filter_cons, hp] using ih
    · simpa [eraseM, lookupM, List.filter_cons, hp] using ih

theorem lookupM_eraseM_ne {α : Type} (m : List (String × α)) (k k' : String)
    (h : k' ≠ k) : lookupM (eraseM m k) k' = lookupM m k' := by
  induction m with
  | nil => simp [eraseM, lookupM]
  | cons p t ih =>
    by_cases hp : p.1 = k
    · have hp' : ¬(p.1 = k') := fun e => h ((e.symm.trans hp))
      simpa [eraseM, lookupM, List.filter_cons, hp, hp', h, Ne.symm h] using ih
    · by_cases hp' : p.1 = k'
      · simp [eraseM, lookupM, List.filter_cons, hp, hp', h, Ne.symm h]
      · simpa [eraseM, lookupM, List.filter_cons, hp, hp', h, Ne.symm h] using ih

theorem genLoop_out (startM endM dur brk : Nat) :
    ∀ fuel seed cur, endM < cur + dur → genLoop startM endM dur brk seed cur fuel = [] := by
  intro fuel
  induction fuel with
  | zero => intro seed cur _; rfl
  | succ fuel ih =>
    intro seed cur h
    simp only [genLoop]
    by_cases h1 : startM ≤ cur ∧ cur ≤ endM
    · have h2 : ¬(startM ≤ cur + dur ∧ cur + dur ≤ endM) := by omega
      rw [if_pos h1, if_neg h2]
      exact ih _ _ (by omega)
    · rw [if_neg h1]

theorem slotCount_rec (cur endM dur step : Nat) (hstep : 0 < step) (h : cur + dur ≤ endM) :
    slotCount cur endM dur step = slotCount (cur + step) endM dur step + 1 := by
  unfold slotCount
  by_cases h2 : cur + step + dur ≤ endM
  · rw [if_pos h, if_pos h2]
    have h3 : endM - dur - (cur + step) = (endM - dur - cur) - step := by omega
    rw [h3]
    have hE : step ≤ endM - dur - cur := by omega
    set E := endM - dur - cur with hEdef
    have h5 : (E - step) + step = E := Nat.sub_add_cancel hE
    conv_lhs => rw [← h5]
    rw [Nat.add_div_right _ hstep]
  · rw [if_pos h, if_neg h2]
    have hlt : endM - dur - cur < step := by omega
    rw [Nat.div_eq_of_lt hlt]

theorem listMapCongr {α β : Type} (f g : α → β) :
    ∀ l : List α, (∀ a ∈ l, f a = g a) → l.map f = l.map g := by
  intro l
  induction l with
  | nil => intro _; rfl
  | cons a t ih =>
    intro h
    simp only [List.map_cons]
    rw [h a (by simp), ih (fun b hb => h b (by simp [hb]))]

/-- Closed form of the generator loop: starting at `cur ≥ startM` with enough
fuel, it emits exactly `slotCount` slots, the i-th starting at
`cur + i * (dur + brk)` with the i-th fresh id. -/
theorem genLoop_closed (startM endM dur brk : Nat) (hstep : 0 < dur + brk) :
    ∀ fuel seed cur, startM ≤ cur → endM < cur + fuel →
      genLoop startM endM dur brk seed cur fuel =
        (List.range (slotCount cur endM dur (dur + brk))).map
          (fun i => mkSlot (seed + i) (cur + i * (dur + brk)) dur) := by
  intro fuel
  induction fuel with
  | zero =>
    intro seed cur hsc hf
    have h0 : slotCount cur endM dur (dur + brk) = 0 := by
      unfold slotCount; rw [if_neg]; omega
    simp [genLoop, h0]
  | succ fuel ih =>
    intro seed cur hsc hf
    simp only [genLoop]
    by_cases h1 : startM ≤ cur ∧ cur ≤ endM
    · rw [if_pos h1]
      by_cases h2 : cur + dur ≤ endM
      · have h2' : startM ≤ cur + dur ∧ cur + dur ≤ endM := ⟨by omega, h2⟩
        rw [if_pos h2']
        rw [ih (seed + 1) (cur + dur + brk) (by omega) (by omega)]
        have hc : cur + dur + brk = cur + (dur + brk) := by omega
        rw [hc, slotCount_rec cur endM dur (dur + brk) hstep h2]
        rw [List.range_succ_eq_map]
        simp only [List.map_cons, List.map_map]
        congr 1
        · congr 1
          omega
        · apply listMapCongr
          intro i _
          show mkSlot (seed + 1 + i) (cur + (dur + brk) + i * (dur + brk)) dur =
            mkSlot (seed + (i + 1)) (cur + (i + 1) * (dur + brk)) dur
          congr 1 <;> ring
      · have h2' : ¬(startM ≤ cur + dur ∧ cur + dur ≤ endM) := by omega
        rw [if_neg h2']
        rw [genLoop_out startM endM dur brk fuel seed (cur + dur + brk) (by omega)]
        have h0 : slotCount cur endM dur (dur + brk) = 0 := by
          unfold slotCount; rw [if_neg h2]
        simp [h0]
    · rw [if_neg h1]
      have h0 : slotCount cur endM dur (dur + brk) = 0 := by
        unfold slotCount; rw [if_neg]; omega
      simp [h0]

/-! ### Claims about the generator -/
/-- C4: on a date whose weekday entry is open, with open minute `o` and close
minute `c` (`o ≤ c`; with `o > c` date-fns throws and the route answers 500)
and a positive slot duration (the settings validation enforces at least 15),
`generateTimeSlots` returns exactly the closed-form slot list: the i-th slot
starts at `o + i * (slotDuration + breakBetweenSlots)` — so the first slot
starts at the open time and each next start is the previous start advanced by
`slotDuration + breakBetweenSlots` — lasts `slotDuration` minutes
(`mkSlot` ends at start + slotDuration), and the second conjunct says a slot
is emitted exactly when its end does not exceed the close minute `c`
(in particular a slot ending exactly at `c` is emitted). -/
theorem generateTimeSlots_algorithm (date : String) (s : OrganizationSettings)
    (seed : Nat) (pd : CalDate) (h : BusinessHours) (o c : Nat)
    (hpd : parseDateYMD date = some pd)
    (hfind : s.businessHours.find? (fun e => e.day == weekdayName pd) = some h)
    (hopen : h.isOpen = true)
    (ho : parseHM h.start = some o) (hc : parseHM h.«end» = some c)
    (hoc : o ≤ c) (hdur : 0 < s.slotDuration) :
    generateTimeSlots date s seed =
      some ((List.range
          (slotCount o c s.slotDuration (s.slotDuration + s.breakBetweenSlots))).map
        (fun i => mkSlot (seed + i) (o + i * (s.slotDuration + s.breakBetweenSlots))
          s.slotDuration)) ∧
    ∀ i, i < slotCount o c s.slotDuration (s.slotDuration + s.breakBetweenSlots) ↔
      o + i * (s.slotDuration + s.breakBetweenSlots) + s.slotDuration ≤ c := by
  constructor
  · simp only [generateTimeSlots, hpd, hfind, hopen, if_true, ho, hc]
    rw [if_pos hoc]
    rw [genLoop_closed o c s.slotDuration s.breakBetweenSlots (by omega) (c + 1) seed o
      (le_refl o) (by omega)]
  · intro i
    unfold slotCount
    by_cases h0 : o + s.slotDuration ≤ c
    · rw [if_pos h0, Nat.lt_succ_iff, Nat.le_div_iff_mul_le (by omega)]
      generalize i * (s.slotDuration + s.breakBetweenSlots) = X
      omega
    · rw [if_neg h0]
      generalize i * (s.slotDuration + s.breakBetweenSlots) = X
      omega

/-- Witness for C4 at the default settings on Monday 2026-10-12 with supply 0. -/
theorem generateTimeSlots_algorithm_witness :
    (0 < defaultSettings.slotDuration) ∧
    (generateTimeSlots ("2026-10-12") defaultSettings 0 =
      some ((List.range
          (slotCount 540 1020 defaultSettings.slotDuration
            (defaultSettings.slotDuration + defaultSettings.breakBetweenSlots))).map
        (fun i => mkSlot (0 + i)
          (540 + i * (defaultSettings.slotDuration + defaultSettings.breakBetweenSlots))
          defaultSettings.slotDuration)) ∧
    ∀ i, i < slotCount 540 1020 defaultSettings.slotDuration
        (defaultSettings.slotDuration + defaultSettings.breakBetweenSlots) ↔
      540 + i * (defaultSettings.slotDuration + defaultSettings.breakBetweenSlots) +
        defaultSettings.slotDuration ≤ 1020) :=
  ⟨by decide,
    generateTimeSlots_algorithm ("2026-10-12") defaultSettings 0 ⟨2026, 10, 12⟩
      { day := "Monday", start := "09:00", «end» := "17:00", isOpen := true } 540 1020
      (by decide) (by decide) (by decide) (by decide) (by decide) (by decide) (by decide)⟩

/-- C3: whenever the weekday entry of the date is open from "09:00" to
"17:00" and the settings have slotDuration 30 and breakBetweenSlots 0,
`generateTimeSlots` returns exactly 16 slots; the listed (start, end) pairs
are contiguous from 09:00-09:30 to 16:30-17:00, each start equal to the
previous end. -/
theorem nine_to_five_sixteen_slots (date : String) (s : OrganizationSettings)
    (seed : Nat) (pd : CalDate) (h : BusinessHours)
    (hpd : parseDateYMD date = some pd)
    (hfind : s.businessHours.find? (fun e => e.day == weekdayName pd) = some h)
    (hopen : h.isOpen = true) (hs : h.start = "09:00") (he : h.«end» = "17:00")
    (hdur : s.slotDuration = 30) (hbrk : s.breakBetweenSlots = 0) :
    ∃ l, generateTimeSlots date s seed = some l ∧ l.length = 16 ∧
      l.map (fun t => (t.start, t.«end»)) =
        [("09:00", "09:30"), ("09:30", "10:00"), ("10:00", "10:30"), ("10:30", "11:00"),
         ("11:00", "11:30"), ("11:30", "12:00"), ("12:00", "12:30"), ("12:30", "13:00"),
         ("13:00", "13:30"), ("13:30", "14:00"), ("14:00", "14:30"), ("14:30", "15:00"),
         ("15:00", "15:30"), ("15:30", "16:00"), ("16:00", "16:30"), ("16:30", "17:00")] := by
  have e1 : parseHM h.start = some 540 := by rw [hs]; decide
  have e2 : parseHM h.«end» = some 1020 := by rw [he]; decide
  have hgen : generateTimeSlots date s seed =
      some ((List.range (slotCount 540 1020 30 (30 + 0))).map
        (fun i => mkSlot (seed + i) (540 + i * (30 + 0)) 30)) := by
    simp only [generateTimeSlots, hpd, hfind, hopen, if_true, e1, e2]
    rw [if_pos (by omega : (540 : Nat) ≤ 1020)]
    rw [hdur, hbrk]
    rw [genLoop_closed 540 1020 30 0 (by omega) 1021 seed 540 (le_refl 540) (by omega)]
  refine ⟨_, hgen, ?_, ?_⟩
  · simp only [List.length_map, List.length_range]
    decide
  · rw [List.map_map]
    rw [show slotCount 540 1020 30 (30 + 0) = 16 from by decide]
    rw [listMapCongr
      ((fun t => (t.start, t.«end»)) ∘ (fun i => mkSlot (seed + i) (540 + i * (30 + 0)) 30))
      (fun i => (formatHM (540 + i * (30 + 0)), formatHM (540 + i * (30 + 0) + 30)))
      (List.range 16) (fun a _ => rfl)]
    decide

/-- Witness for C3 on Monday 2026-10-12 with the default settings. -/
theorem nine_to_five_sixteen_slots_witness :
    defaultSettings.slotDuration = 30 ∧
    ∃ l, generateTimeSlots ("2026-10-12") defaultSettings 0 = some l ∧ l.length = 16 ∧
      l.map (fun t => (t.start, t.«end»)) =
        [("09:00", "09:30"), ("09:30", "10:00"), ("10:00", "10:30"), ("10:30", "11:00"),
         ("11:00", "11:30"), ("11:30", "12:00"), ("12:00", "12:30"), ("12:30", "13:00"),
         ("13:00", "13:30"), ("13:30", "14:00"), ("14:00", "14:30"), ("14:30", "15:00"),
         ("15:00", "15:30"), ("15:30", "16:00"), ("16:00", "16:30"), ("16:30", "17:00")] :=
  ⟨by decide,
    nine_to_five_sixteen_slots ("2026-10-12") defaultSettings 0 ⟨2026, 10, 12⟩
      { day := "Monday", start := "09:00", «end» := "17:00", isOpen := true }
      (by decide) (by decide) (by decide) (by decide) (by decide) (by decide) (by decide)⟩

/-- C5: if the weekday's business-hours entry is missing, or present with
isOpen = false, `generateTimeSlots` returns the empty list — for every
settings value, i.e. regardless of slotDuration and breakBetweenSlots, since
the closed/missing check precedes any use of them. -/
theorem closed_day_empty (date : String) (s : OrganizationSettings) (seed : Nat)
    (pd : CalDate) (hpd : parseDateYMD date = some pd)
    (hclosed : (match s.businessHours.find? (fun e => e.day == weekdayName pd) with
                | none => true
                | some h0 => !h0.isOpen) = true) :
    generateTimeSlots date s seed = some [] := by
  simp only [generateTimeSlots, hpd]
  cases hf : s.businessHours.find? (fun e => e.day == weekdayName pd) with
  | none => simp [hf]
  | some h0 =>
    simp only [hf, Bool.not_eq_true'] at hclosed
    simp [hf, hclosed]

/-- Witness for C5: Saturday 2026-10-10 is closed in the default settings. -/
theorem closed_day_empty_witness :
    (match defaultSettings.businessHours.find?
        (fun e => e.day == weekdayName ⟨2026, 10, 10⟩) with
      | none => true
      | some h0 => !h0.isOpen) = true ∧
    generateTimeSlots ("2026-10-10") defaultSettings 0 = some [] :=
  ⟨by decide,
    closed_day_empty ("2026-10-10") defaultSettings 0 ⟨2026, 10, 10⟩ (by decide) (by decide)⟩

theorem genLoop_proj (startM endM dur brk : Nat) :
    ∀ fuel seed1 seed2 cur,
      (genLoop startM endM dur brk seed1 cur fuel).map projSlot =
      (genLoop startM endM dur brk seed2 cur fuel).map projSlot := by
  intro fuel
  induction fuel with
  | zero => intro _ _ _; rfl
  | succ fuel ih =>
    intro s1 s2 cur
    simp only [genLoop]
    by_cases h1 : startM ≤ cur ∧ cur ≤ endM
    · rw [if_pos h1, if_pos h1]
      by_cases h2 : startM ≤ cur + dur ∧ cur + dur ≤ endM
      · rw [if_pos h2, if_pos h2]
        simp only [List.map_cons]
        rw [ih (s1 + 1) (s2 + 1) (cur + dur + brk)]
        rfl
      · rw [if_neg h2, if_neg h2]
        exact ih s1 s2 (cur + dur + brk)
    · rw [if_neg h1, if_neg h1]

/-- C8 (amended): two `generateTimeSlots` calls with the same date string and
the same settings return slot sequences that agree on the start, end and
isAvailable fields of every slot; the id fields are drawn fresh from the uuid
supply on each call, so they are not equal across calls (see the
counterexample `generateTimeSlots_ids_differ`).  The embedded function is
pure: it reads no server state beyond its arguments and writes none. -/
theorem generateTimeSlots_deterministic_up_to_ids (date : String)
    (s : OrganizationSettings) (seed1 seed2 : Nat) :
    (generateTimeSlots date s seed1).map (fun l => l.map projSlot) =
    (generateTimeSlots date s seed2).map (fun l => l.map projSlot) := by
  cases hpd : parseDateYMD date with
  | none => simp [generateTimeSlots, hpd]
  | some pd =>
    simp only [generateTimeSlots, hpd]
    cases hf : s.businessHours.find? (fun e => e.day == weekdayName pd) with
    | none => rfl
    | some h =>
      simp only [hf]
      by_cases hop : h.isOpen = true
      · simp only [hop, if_true]
        cases ho : parseHM h.start with
        | none =>
          cases hc : parseHM h.«end» with
          | none => simp [ho, hc]
          | some c => simp [ho, hc]
        | some o =>
          cases hc : parseHM h.«end» with
          | none => simp [ho, hc]
          | some c =>
            simp only [ho, hc]
            by_cases hoc : o ≤ c
            · rw [if_pos hoc, if_pos hoc]
              simp only [Option.map_some']
              exact congrArg some
                (genLoop_proj o c s.slotDuration s.breakBetweenSlots (c + 1) seed1 seed2 o)
            · rw [if_neg hoc, if_neg hoc]
      · simp [hop]

/-- C8 counterexample: the claim as stated — equality in every field of every
slot — fails, because each call draws fresh uuids for the slot ids.  Here the
two calls are made with the supply at 0 and at 16 (its position after the
first call has drawn its 16 ids). -/
theorem generateTimeSlots_ids_differ :
    generateTimeSlots ("2026-10-12") defaultSettings 0 ≠
    generateTimeSlots ("2026-10-12") defaultSettings 16 := by decide

/-! ### Claims about the routes -/
theorem markRead_nil (t : TimeSlot) : markRead [] t = t := rfl

theorem markRead_append (l : List TimeSlotRange) (ts : TimeSlotRange) (t : TimeSlot) :
    markRead (l ++ [ts]) t =
      (if t.start = ts.start ∧ t.«end» = ts.«end»
        then { markRead l t with isAvailable := false }
        else markRead l t) := by
  by_cases hm : t.start = ts.start ∧ t.«end» = ts.«end»
  · rw [if_pos hm]
    have hB : (List.any [ts] (fun b => b.start == t.start && b.«end» == t.«end»)) = true := by
      simp only [List.any_cons, List.any_nil, Bool.or_false, Bool.and_eq_true, beq_iff_eq]
      exact ⟨hm.1.symm, hm.2.symm⟩
    unfold markRead
    rw [List.any_append, hB, Bool.or_true]
    rfl
  · rw [if_neg hm]
    have hB : (List.any [ts] (fun b => b.start == t.start && b.«end» == t.«end»)) = false := by
      simp only [List.any_cons, List.any_nil, Bool.or_false]
      apply Bool.eq_false_iff.mpr
      intro hcon
      rw [Bool.and_eq_true, beq_iff_eq, beq_iff_eq] at hcon
      exact hm ⟨hcon.1.symm, hcon.2.symm⟩
    unfold markRead
    rw [List.any_append, hB, Bool.or_false]

theorem markRead_single (ts : TimeSlotRange) (t : TimeSlot) :
    markRead [ts] t =
      (if t.start = ts.start ∧ t.«end» = ts.«end»
        then { t with isAvailable := false } else t) := by
  have h := markRead_append [] ts t
  simpa [markRead_nil] using h

/-- C2: recording a booking (start, end) for a date in the booked-slots index
(exactly the index mutation of POST /api/appointments) changes a subsequent
GET /slots/:date read, for any reading organization, only at the matching
slots: every slot of the day whose start and end equal the booking is
reported unavailable, every other slot is reported exactly as the read
before the booking reported it (isAvailable flag included), and the isLocked
flag is unchanged.  No hypotheses: the frame holds whatever the prior cache,
settings and booked state are, and on the throwing paths both reads answer
500 alike. -/
theorem booking_marks_exactly_its_slot (st : ServerState) (org aptOrg aptId date : String)
    (ts : TimeSlotRange) :
    getSlotsDate
        { st with bookedSlots := recordBookedSlot st.bookedSlots date aptOrg aptId ts }
        org date =
      (getSlotsDate st org date).map
        (fun p => (p.1.map (fun t =>
          if t.start = ts.start ∧ t.«end» = ts.«end»
          then { t with isAvailable := false } else t), p.2)) := by
  have hbase : baseSlots
      { st with bookedSlots := recordBookedSlot st.bookedSlots date aptOrg aptId ts }
      org date = baseSlots st org date := rfl
  have hld : lookupM
      ({ st with bookedSlots := recordBookedSlot st.bookedSlots date aptOrg aptId ts }
        : ServerState).lockedDays org = lookupM st.lockedDays org := rfl
  unfold getSlotsDate
  rw [hbase, hld]
  cases hb : baseSlots st org date with
  | none => rfl
  | some slots0 =>
    cases hl : lookupM st.lockedDays org with
    | none => rfl
    | some ld =>
      cases hE : lookupM st.bookedSlots date with
      | none =>
        have hNew : lookupM (recordBookedSlot st.bookedSlots date aptOrg aptId ts) date =
            some { organizationId := aptOrg, appointmentId := aptId, timeSlots := [ts] } := by
          unfold recordBookedSlot
          rw [hE]
          exact lookupM_insertM_self st.bookedSlots date _
        simp only [hNew, hE, Option.map_some']
        rw [listMapCongr (markRead [ts])
          (fun t => if t.start = ts.start ∧ t.«end» = ts.«end»
            then { t with isAvailable := false } else t)
          slots0 (fun t _ => markRead_single ts t)]
      | some b =>
        have hNew : lookupM (recordBookedSlot st.bookedSlots date aptOrg aptId ts) date =
            some { b with timeSlots := b.timeSlots ++ [ts] } := by
          unfold recordBookedSlot
          rw [hE]
          exact lookupM_insertM_self st.bookedSlots date _
        simp only [hNew, hE, Option.map_some', List.map_map]
        rw [listMapCongr (markRead (b.timeSlots ++ [ts]))
          ((fun t => if t.start = ts.start ∧ t.«end» = ts.«end»
            then { t with isAvailable := false } else t) ∘ markRead b.timeSlots)
          slots0 (fun t _ => by rw [markRead_append]; rfl)]

/-- C6: a successful PUT /settings (any body passing the zod bounds) empties
the organization's slot cache — every date's cached entry is gone, so the
next read regenerates from the new settings — leaves every other
organization's cache entries untouched, and answers with the updated
settings. -/
theorem putSettings_clears_cache (st : ServerState) (orgId : String)
    (body : OrganizationSettings) (hv : validSettings body = true) :
    (∀ d, cacheLookup (putSettings st orgId body).1 orgId d = none) ∧
    (∀ org d, org ≠ orgId →
      cacheLookup (putSettings st orgId body).1 org d = cacheLookup st org d) ∧
    (putSettings st orgId body).2 = PutSettingsResult.updated body := by
  unfold putSettings
  rw [if_pos hv]
  refine ⟨?_, ?_, rfl⟩
  · intro d
    unfold cacheLookup
    rw [lookupM_insertM_self]
    rfl
  · intro org d hne
    unfold cacheLookup
    rw [lookupM_insertM_ne _ _ _ _ hne]
    by_cases hinit : (lookupM st.settings orgId).isNone = true
    · rw [if_pos hinit]
      simp only [initOrganizationSettings]
      rw [lookupM_insertM_ne _ _ _ _ hne]
    · rw [if_neg hinit]

/-- Witness for C6: updating org1's settings on the pristine state. -/
theorem putSettings_clears_cache_witness :
    validSettings defaultSettings = true ∧
    ((∀ d, cacheLookup (putSettings emptyState ("org1") defaultSettings).1 ("org1") d = none) ∧
     (∀ org d, org ≠ "org1" →
       cacheLookup (putSettings emptyState ("org1") defaultSettings).1 org d =
         cacheLookup emptyState org d) ∧
     (putSettings emptyState ("org1") defaultSettings).2 =
       PutSettingsResult.updated defaultSettings) :=
  ⟨by decide, putSettings_clears_cache emptyState ("org1") defaultSettings (by decide)⟩

theorem findIsSome_of_any {α : Type} (p : α → Bool) :
    ∀ l : List α, l.any p = true → (l.find? p).isSome = true := by
  intro l
  induction l with
  | nil => intro h; simp at h
  | cons a t ih =>
    intro h
    by_cases hp : p a = true
    · simp [List.find?_cons, hp]
    · have hp' : p a = false := by
        revert hp; cases p a
        · intro _; rfl
        · intro hc; exact absurd rfl hc
      simp only [List.any_cons, hp', Bool.false_or] at h
      simp [List.find?_cons, hp', ih h]

/-- C10: POST /api/appointments with a valid body whose (start, end) pair
already appears in the booked-slots entry of the normalized request date —
whatever organization that entry belongs to, the index being keyed by date
only, and whatever organization the request addresses — answers
400 "This time slot is already booked" and returns the state unchanged
(appointments list, booked-slots index and uuid supply included). -/
theorem duplicate_booking_rejected (st : ServerState) (user : User) (body : CreateInput)
    (pd : CalDate) (b : BookedEntry)
    (hrole : user.role = "individual")
    (hvalid : validCreate body = true)
    (hpd : parseDateYMD body.date = some pd)
    (hbooked : lookupM st.bookedSlots (formatYMD pd) = some b)
    (hdup : b.timeSlots.any
        (fun sl => sl.start == body.timeSlot.start && sl.«end» == body.timeSlot.«end») =
      true) :
    createAppointment st user body = (st, .err 400 ("This time slot is already booked")) := by
  unfold createAppointment
  rw [hrole]
  simp only [beq_self_eq_true, Bool.not_true, Bool.false_eq_true, if_false, hvalid, hpd]
  rw [hbooked]
  simp only [Option.some_bind]
  exact if_pos (findIsSome_of_any _ _ hdup)

/-- Witness for C10: the existing entry belongs to orgA while the duplicate
request addresses orgB; the request is rejected and the state is unchanged. -/
theorem duplicate_booking_rejected_witness :
    validCreate
      { organizationId := "orgB"
        date := "2026-10-12"
        timeSlot := { start := "09:00", «end» := "09:30" }
        notes := none } = true ∧
    createAppointment
      { emptyState with bookedSlots :=
          [("2026-10-12",
            { organizationId := "orgA"
              appointmentId := "apt0"
              timeSlots := [{ start := "09:00", «end» := "09:30" }] })] }
      { id := "ind1", name := "Alice", role := "individual" }
      { organizationId := "orgB"
        date := "2026-10-12"
        timeSlot := { start := "09:00", «end» := "09:30" }
        notes := none } =
    ({ emptyState with bookedSlots :=
        [("2026-10-12",
          { organizationId := "orgA"
            appointmentId := "apt0"
            timeSlots := [{ start := "09:00", «end» := "09:30" }] })] },
      .err 400 ("This time slot is already booked")) :=
  ⟨by decide,
    duplicate_booking_rejected
      { emptyState with bookedSlots :=
          [("2026-10-12",
            { organizationId := "orgA"
              appointmentId := "apt0"
              timeSlots := [{ start := "09:00", «end» := "09:30" }] })] }
      { id := "ind1", name := "Alice", role := "individual" }
      { organizationId := "orgB"
        date := "2026-10-12"
        timeSlot := { start := "09:00", «end» := "09:30" }
        notes := none }
      ⟨2026, 10, 12⟩
      { organizationId := "orgA"
        appointmentId := "apt0"
        timeSlots := [{ start := "09:00", «end» := "09:30" }] }
      (by decide) (by decide) (by decide) (by decide) (by decide)⟩

set_option maxRecDepth 8000

/-- C1 evaluated at a failing history, showing the claimed property false of
the code: org1 is initialized with the default settings; the individual ind1
books 09:00-09:30 on Monday 2026-10-12 (appointment uuid-1); GET
/slots/status for that day reports 15 of 16 slots available and — in place —
writes isAvailable = false into the cached slot; ind1 then cancels the
appointment, which does remove the date's entry from the booked-slots index;
yet the next GET /slots/status still reports 15 of 16, and GET /slots/:date
still lists 09:00-09:30 as the one unavailable slot, because nothing ever
writes isAvailable back to true.  The claim says both reads report the slot
available again. -/
theorem cancel_after_status_read_slot_stays_unavailable :
    (let st0 := initOrganizationSettings emptyState ("org1")
     let u : User := { id := "ind1", name := "Alice", role := "individual" }
     let body : CreateInput :=
       { organizationId := "org1"
         date := "2026-10-12"
         timeSlot := { start := "09:00", «end» := "09:30" }
         notes := none }
     let st1 := (createAppointment st0 u body).1
     (match (createAppointment st0 u body).2 with
       | CreateResult.created a => a.id == "uuid-1" && a.status == AptStatus.pending
       | _ => false) = true ∧
     (slotsStatus st1 ("org1") ⟨2026, 10, 12⟩ ⟨2026, 10, 12⟩).2 =
       some [("2026-10-12", { isLocked := false, availableSlots := 15, totalSlots := 16 })] ∧
     (let st2 := (slotsStatus st1 ("org1") ⟨2026, 10, 12⟩ ⟨2026, 10, 12⟩).1
      let st3 := (cancelAppointment st2 u ("uuid-1")).1
      (match (cancelAppointment st2 u ("uuid-1")).2 with
        | CancelResult.ok _ => true
        | _ => false) = true ∧
      lookupM st3.bookedSlots ("2026-10-12") = none ∧
      (slotsStatus st3 ("org1") ⟨2026, 10, 12⟩ ⟨2026, 10, 12⟩).2 =
        some [("2026-10-12", { isLocked := false, availableSlots := 15, totalSlots := 16 })] ∧
      (getSlotsDate st3 ("org1") ("2026-10-12")).map
        (fun p => ((p.1.filter (fun sl => !sl.isAvailable)).map
          (fun sl => (sl.start, sl.«end»)))) =
        some [("09:00", "09:30")])) := by
  decide

/-! ### Infrastructure for the status-read claims (C7, C9) -/
theorem cacheLookup_cacheInsert (st : ServerState) (org date : String)
    (v : List TimeSlot) (org' date' : String) :
    cacheLookup (cacheInsert st org date v) org' date' =
      if org' = org ∧ date' = date then some v else cacheLookup st org' date' := by
  unfold cacheLookup cacheInsert
  by_cases ho : org' = org
  · subst ho
    rw [lookupM_insertM_self]
    by_cases hd : date' = date
    · subst hd
      rw [if_pos ⟨rfl, rfl⟩]
      simp only [Option.some_bind]
      exact lookupM_insertM_self _ _ _
    · rw [if_neg (fun hh => hd hh.2)]
      simp only [Option.some_bind]
      rw [lookupM_insertM_ne _ _ _ _ hd]
      cases hm : lookupM st.timeSlots org' with
      | none => rfl
      | some m => rfl
  · rw [if_neg (fun hh => ho hh.1)]
    rw [lookupM_insertM_ne _ _ _ _ ho]

/-- Case analysis of `ensureDaySlots`: either the day was cached (state
untouched), or it was generated and stored under exactly (orgId, dateStr),
all other stores untouched. -/
theorem ensureDaySlots_cases (orgId dateStr : String) (st st1 : ServerState)
    (ds : List TimeSlot) (h : ensureDaySlots orgId dateStr st = some (st1, ds)) :
    (st1 = st ∧ cacheLookup st orgId dateStr = some ds) ∨
    (cacheLookup st orgId dateStr = none ∧
      st1.settings = st.settings ∧ st1.bookedSlots = st.bookedSlots ∧
      st1.lockedDays = st.lockedDays ∧ st1.appointments = st.appointments ∧
      ∀ org' date', cacheLookup st1 org' date' =
        if org' = orgId ∧ date' = dateStr then some ds else cacheLookup st org' date') := by
  unfold ensureDaySlots at h
  split at h
  next s hc =>
    injection h with h
    injection h with hA hB
    left
    refine ⟨hA.symm, ?_⟩
    rw [hc, hB]
  next hc =>
    split at h
    next hs => exact Option.noConfusion h
    next os hs =>
      split at h
      next hg => exact Option.noConfusion h
      next gen hg =>
        injection h with h
        injection h with hA hB
        subst hA
        subst hB
        right
        refine ⟨hc, rfl, rfl, rfl, rfl, ?_⟩
        intro org' date'
        have he : cacheLookup
            { cacheInsert st orgId dateStr gen with uuidSeed := st.uuidSeed + gen.length }
            org' date' = cacheLookup (cacheInsert st orgId dateStr gen) org' date' := rfl
        rw [he, cacheLookup_cacheInsert]

theorem slotWeaker_refl (x : TimeSlot) : slotWeaker x x := ⟨rfl, rfl, rfl, id⟩

theorem slotWeaker_trans {x y z : TimeSlot} (a : slotWeaker x y) (b : slotWeaker y z) :
    slotWeaker x z :=
  ⟨b.1.trans a.1, b.2.1.trans a.2.1, b.2.2.1.trans a.2.2.1,
    fun h => a.2.2.2 (b.2.2.2 h)⟩

theorem slotsMono_refl (a : List TimeSlot) : slotsMono a a := by
  refine ⟨rfl, ?_⟩
  intro i x y hx hy
  rw [hx] at hy
  injection hy with hy
  subst hy
  exact slotWeaker_refl x

theorem get?_isSome_of_lt {α : Type} :
    ∀ (l : List α) (i : Nat), i < l.length → ∃ x, l.get? i = some x := by
  intro l
  induction l with
  | nil => intro i h; exact absurd h (by simp)
  | cons a t ih =>
    intro i h
    cases i with
    | zero => exact ⟨a, rfl⟩
    | succ j => exact ih j (by simpa using h)

theorem lt_of_get?_eq_some {α : Type} :
    ∀ (l : List α) (i : Nat) (x : α), l.get? i = some x → i < l.length := by
  intro l
  induction l with
  | nil => intro i x h; exact Option.noConfusion h
  | cons a t ih =>
    intro i x h
    cases i with
    | zero => simp
    | succ j =>
      have hj := ih j x (by simpa using h)
      simpa using Nat.succ_lt_succ hj

theorem slotsMono_trans {a b c : List TimeSlot}
    (hab : slotsMono a b) (hbc : slotsMono b c) : slotsMono a c := by
  refine ⟨hbc.1.trans hab.1, ?_⟩
  intro i x z hx hz
  have hia : i < a.length := lt_of_get?_eq_some a i x hx
  have hib : i < b.length := by rw [hab.1]; exact hia
  obtain ⟨y, hy⟩ := get?_isSome_of_lt b i hib
  exact slotWeaker_trans (hab.2 i x y hx hy) (hbc.2 i y z hy hz)

theorem markStatus_weaker (bts : List TimeSlotRange) (x : TimeSlot) :
    slotWeaker x (markStatus bts x) := by
  unfold markStatus
  by_cases h : (bts.any fun b => b.start == x.start && b.«end» == x.«end») = true
  · rw [if_pos h]
    exact ⟨rfl, rfl, rfl, fun hc => Bool.noConfusion hc⟩
  · rw [if_neg h]
    exact slotWeaker_refl x

theorem get?_map_eq {α β : Type} (f : α → β) :
    ∀ (l : List α) (i : Nat), (l.map f).get? i = (l.get? i).map f := by
  intro l
  induction l with
  | nil => intro i; rfl
  | cons a t ih =>
    intro i
    cases i with
    | zero => rfl
    | succ j => exact ih j

theorem slotsMono_map_markStatus (bts : List TimeSlotRange) (a : List TimeSlot) :
    slotsMono a (a.map (markStatus bts)) := by
  refine ⟨List.length_map a _, ?_⟩
  intro i x y hx hy
  rw [get?_map_eq, hx] at hy
  injection hy with hy
  subst hy
  exact markStatus_weaker bts x

theorem slotsMono_markDay (bs : List (String × BookedEntry)) (d : String)
    (a : List TimeSlot) : slotsMono a (markDay bs d a) := by
  unfold markDay
  cases lookupM bs d with
  | none => exact slotsMono_refl a
  | some b => exact slotsMono_map_markStatus b.timeSlots a

theorem markStatus_idem (bts : List TimeSlotRange) (x : TimeSlot) :
    markStatus bts (markStatus bts x) = markStatus bts x := by
  unfold markStatus
  by_cases h : (bts.any fun b => b.start == x.start && b.«end» == x.«end») = true
  · rw [if_pos h]
    have h2 : (bts.any fun b =>
        b.start == ({ x with isAvailable := false } : TimeSlot).start &&
        b.«end» == ({ x with isAvailable := false } : TimeSlot).«end») = true := h
    rw [if_pos h2]
  · rw [if_neg h, if_neg h]

theorem markDay_idem (bs : List (String × BookedEntry)) (d : String)
    (a : List TimeSlot) : markDay bs d (markDay bs d a) = markDay bs d a := by
  unfold markDay
  cases lookupM bs d with
  | none => rfl
  | some b =>
    show (a.map (markStatus b.timeSlots)).map (markStatus b.timeSlots) =
      a.map (markStatus b.timeSlots)
    rw [List.map_map]
    exact listMapCongr _ _ a (fun x _ => markStatus_idem b.timeSlots x)

/-- A status read only degrades cached availability: every cache entry
present before the read is still present afterwards, with the same ids,
starts and ends, and with `isAvailable` never flipped from false to true. -/
theorem statusLoop_cache_mono (orgId : String) :
    ∀ (days : List CalDate) (st : ServerState) (acc : List (String × DayStatus))
      (org' date' : String) (slots : List TimeSlot),
      cacheLookup st org' date' = some slots →
      ∃ slots', cacheLookup (statusLoop orgId st days acc).1 org' date' = some slots' ∧
        slotsMono slots slots' := by
  intro days
  induction days with
  | nil =>
    intro st acc org' date' slots h
    exact ⟨slots, h, slotsMono_refl slots⟩
  | cons day rest ih =>
    intro st acc org' date' slots h
    simp only [statusLoop]
    cases he : ensureDaySlots orgId (formatYMD day) st with
    | none => exact ⟨slots, h, slotsMono_refl slots⟩
    | some p =>
      obtain ⟨st1, ds0⟩ := p
      have key : ∃ mid,
          cacheLookup (cacheInsert st1 orgId (formatYMD day)
            (markDay st1.bookedSlots (formatYMD day) ds0)) org' date' = some mid ∧
          slotsMono slots mid := by
        rcases ensureDaySlots_cases orgId (formatYMD day) st st1 ds0 he with
          ⟨hst, hcache⟩ | ⟨hnone, _, _, _, _, hc1⟩
        · rw [hst, cacheLookup_cacheInsert]
          by_cases hkey : org' = orgId ∧ date' = formatYMD day
          · rw [if_pos hkey]
            have h2 : cacheLookup st orgId (formatYMD day) = some slots := by
              rw [← hkey.1, ← hkey.2]; exact h
            have h3 : ds0 = slots := by
              have h4 := hcache.symm.trans h2
              injection h4
            rw [h3]
            exact ⟨markDay st.bookedSlots (formatYMD day) slots, rfl,
              slotsMono_markDay _ _ _⟩
          · rw [if_neg hkey]
            exact ⟨slots, h, slotsMono_refl slots⟩
        · rw [cacheLookup_cacheInsert]
          by_cases hkey : org' = orgId ∧ date' = formatYMD day
          · exfalso
            have h2 : cacheLookup st orgId (formatYMD day) = some slots := by
              rw [← hkey.1, ← hkey.2]; exact h
            exact Option.noConfusion (hnone.symm.trans h2)
          · rw [if_neg hkey, hc1 org' date', if_neg hkey]
            exact ⟨slots, h, slotsMono_refl slots⟩
      obtain ⟨mid, hmid, hmono⟩ := key
      simp only []
      split
      next hld => exact ⟨mid, hmid, hmono⟩
      next ld hld =>
        obtain ⟨fin, hfin, hmono2⟩ := ih _ _ org' date' mid hmid
        exact ⟨fin, hfin, slotsMono_trans hmono hmono2⟩

/-- What each reported day entry means: every (key, status) pair the loop
reports — given that the incoming accumulator's entries are themselves backed
by saturated cache entries — is backed by the org's final cached slot list
for that key, with availableSlots and totalSlots counted from it. -/
theorem statusLoop_report (orgId : String) :
    ∀ (days : List CalDate) (st : ServerState) (acc : List (String × DayStatus)),
      (∀ k v, (k, v) ∈ acc → ∃ m, cacheLookup st orgId k = some m ∧
        markDay st.bookedSlots k m = m ∧
        v.availableSlots = countAvail m ∧ v.totalSlots = m.length) →
      ∀ l, (statusLoop orgId st days acc).2 = some l →
      ∀ k v, (k, v) ∈ l → ∃ m,
        cacheLookup (statusLoop orgId st days acc).1 orgId k = some m ∧
        v.availableSlots = countAvail m ∧ v.totalSlots = m.length := by
  intro days
  induction days with
  | nil =>
    intro st acc hI l hl k v hkv
    simp only [statusLoop] at hl ⊢
    injection hl with hl
    subst hl
    obtain ⟨m, h1, _, h3, h4⟩ := hI k v hkv
    exact ⟨m, h1, h3, h4⟩
  | cons day rest ih =>
    intro st acc hI l hl k v hkv
    simp only [statusLoop] at hl ⊢
    cases he : ensureDaySlots orgId (formatYMD day) st with
    | none => simp [he] at hl
    | some p =>
      obtain ⟨st1, ds0⟩ := p
      simp only [he] at hl
      simp only []
      cases hld : lookupM (cacheInsert st1 orgId (formatYMD day)
          (markDay st1.bookedSlots (formatYMD day) ds0)).lockedDays orgId with
      | none => simp [hld] at hl
      | some ld =>
        simp only [hld] at hl
        have hbs : st1.bookedSlots = st.bookedSlots := by
          rcases ensureDaySlots_cases orgId (formatYMD day) st st1 ds0 he with
            ⟨hst, _⟩ | ⟨_, _, hbs1, _, _, _⟩
          · rw [hst]
          · exact hbs1
        have hcl : ∀ k', ¬(k' = formatYMD day) →
            cacheLookup st1 orgId k' = cacheLookup st orgId k' := by
          intro k' hk'
          rcases ensureDaySlots_cases orgId (formatYMD day) st st1 ds0 he with
            ⟨hst, _⟩ | ⟨_, _, _, _, _, hc1⟩
          · rw [hst]
          · rw [hc1 orgId k', if_neg (fun hh => hk' hh.2)]
        have hent : cacheLookup st orgId (formatYMD day) = some ds0 ∨
            cacheLookup st orgId (formatYMD day) = none := by
          rcases ensureDaySlots_cases orgId (formatYMD day) st st1 ds0 he with
            ⟨_, hcache⟩ | ⟨hnone, _, _, _, _, _⟩
          · exact Or.inl hcache
          · exact Or.inr hnone
        have hI2 : ∀ k' v', (k', v') ∈ acc ++ [(formatYMD day,
              ({ isLocked := ld.contains (formatYMD day)
                 availableSlots := ((markDay st1.bookedSlots (formatYMD day) ds0).filter
                   (fun sl => sl.isAvailable)).length
                 totalSlots := (markDay st1.bookedSlots (formatYMD day) ds0).length }
                : DayStatus))] →
            ∃ m, cacheLookup (cacheInsert st1 orgId (formatYMD day)
                (markDay st1.bookedSlots (formatYMD day) ds0)) orgId k' = some m ∧
              markDay (cacheInsert st1 orgId (formatYMD day)
                (markDay st1.bookedSlots (formatYMD day) ds0)).bookedSlots k' m = m ∧
              v'.availableSlots = countAvail m ∧ v'.totalSlots = m.length := by
          intro k' v' hkv'
          rcases List.mem_append.mp hkv' with hin | hnew
          · obtain ⟨m, hm1, hm2, hm3, hm4⟩ := hI k' v' hin
            by_cases hk : k' = formatYMD day
            · rcases hent with hsome | hnone2
              · have h5 : cacheLookup st orgId (formatYMD day) = some m := by
                  rw [← hk]; exact hm1
                have hds : ds0 = m := by
                  have h6 := hsome.symm.trans h5
                  injection h6
                have hmark : markDay st1.bookedSlots (formatYMD day) ds0 = m := by
                  rw [hbs, hds, ← hk]
                  exact hm2
                refine ⟨m, ?_, ?_, hm3, hm4⟩
                · rw [cacheLookup_cacheInsert, if_pos ⟨rfl, hk⟩, hmark]
                · show markDay st1.bookedSlots k' m = m
                  rw [hbs]; exact hm2
              · exfalso
                have h5 : cacheLookup st orgId (formatYMD day) = some m := by
                  rw [← hk]; exact hm1
                exact Option.noConfusion (hnone2.symm.trans h5)
            · refine ⟨m, ?_, ?_, hm3, hm4⟩
              · rw [cacheLookup_cacheInsert, if_neg (fun hh => hk hh.2), hcl k' hk]
                exact hm1
              · show markDay st1.bookedSlots k' m = m
                rw [hbs]; exact hm2
          · have hpair := List.mem_singleton.mp hnew
            have hk : k' = formatYMD day := congrArg Prod.fst hpair
            have hv : v' =
                ({ isLocked := ld.contains (formatYMD day)
                   availableSlots := ((markDay st1.bookedSlots (formatYMD day) ds0).filter
                     (fun sl => sl.isAvailable)).length
                   totalSlots := (markDay st1.bookedSlots (formatYMD day) ds0).length }
                  : DayStatus) := congrArg Prod.snd hpair
            refine ⟨markDay st1.bookedSlots (formatYMD day) ds0, ?_, ?_, ?_, ?_⟩
            · rw [cacheLookup_cacheInsert, if_pos ⟨rfl, hk⟩]
            · show markDay st1.bookedSlots k'
                  (markDay st1.bookedSlots (formatYMD day) ds0) =
                markDay st1.bookedSlots (formatYMD day) ds0
              rw [hk, hbs]
              exact markDay_idem _ _ _
            · rw [hv]
              rfl
            · rw [hv]
        exact ih _ _ hI2 l hl k v hkv

/-- Every day status the loop reports carries `isLocked = ld.contains key`,
where `ld` is the org's locked-days list (which the loop never modifies). -/
theorem statusLoop_locked (orgId : String) :
    ∀ (days : List CalDate) (st : ServerState) (acc : List (String × DayStatus))
      (ld : List String),
      lookupM st.lockedDays orgId = some ld →
      (∀ k v, (k, v) ∈ acc → v.isLocked = ld.contains k) →
      ∀ l, (statusLoop orgId st days acc).2 = some l →
      ∀ k v, (k, v) ∈ l → v.isLocked = ld.contains k := by
  intro days
  induction days with
  | nil =>
    intro st acc ld hld hI l hl k v hkv
    simp only [statusLoop] at hl
    injection hl with hl
    subst hl
    exact hI k v hkv
  | cons day rest ih =>
    intro st acc ld hld hI l hl k v hkv
    simp only [statusLoop] at hl
    cases he : ensureDaySlots orgId (formatYMD day) st with
    | none => simp [he] at hl
    | some p =>
      obtain ⟨st1, ds0⟩ := p
      simp only [he] at hl
      have hfr : st1.lockedDays = st.lockedDays := by
        rcases ensureDaySlots_cases orgId (formatYMD day) st st1 ds0 he with
          ⟨hst, _⟩ | ⟨_, _, _, hld1, _, _⟩
        · rw [hst]
        · exact hld1
      have hld2 : lookupM (cacheInsert st1 orgId (formatYMD day)
          (markDay st1.bookedSlots (formatYMD day) ds0)).lockedDays orgId = some ld := by
        show lookupM st1.lockedDays orgId = some ld
        rw [hfr]; exact hld
      simp only [hld2] at hl
      refine ih _ _ ld ?_ ?_ l hl k v hkv
      · show lookupM st1.lockedDays orgId = some ld
        rw [hfr]; exact hld
      · intro k' v' hkv'
        rcases List.mem_append.mp hkv' with hin | hnew
        · exact hI k' v' hin
        · have hpair := List.mem_singleton.mp hnew
          have hk : k' = formatYMD day := congrArg Prod.fst hpair
          have hv : v' =
              ({ isLocked := ld.contains (formatYMD day)
                 availableSlots := ((markDay st1.bookedSlots (formatYMD day) ds0).filter
                   (fun sl => sl.isAvailable)).length
                 totalSlots := (markDay st1.bookedSlots (formatYMD day) ds0).length }
                : DayStatus) := congrArg Prod.snd hpair
          rw [hv, hk]

/-- The helper `ensureDaySlots` never reads the locked-days store: changing it only
changes it in the resulting state. -/
theorem ensureDaySlots_lockedDays (orgId dateStr : String) (st : ServerState)
    (L : List (String × List String)) :
    ensureDaySlots orgId dateStr { st with lockedDays := L } =
      (ensureDaySlots orgId dateStr st).map
        (fun p => ({ p.1 with lockedDays := L }, p.2)) := by
  unfold ensureDaySlots
  have h0 : cacheLookup { st with lockedDays := L } orgId dateStr =
      cacheLookup st orgId dateStr := rfl
  rw [h0]
  cases hc : cacheLookup st orgId dateStr with
  | some s => rfl
  | none =>
    simp only []
    have hs1 : lookupM ({ st with lockedDays := L } : ServerState).settings orgId =
        lookupM st.settings orgId := rfl
    rw [hs1]
    cases hs : lookupM st.settings orgId with
    | none => rfl
    | some os =>
      simp only []
      have h2 : ({ st with lockedDays := L } : ServerState).uuidSeed = st.uuidSeed := rfl
      rw [h2]
      cases hg : generateTimeSlots dateStr os st.uuidSeed with
      | none => rfl
      | some gen => rfl

/-- A status read on a state whose locked-days store was replaced reports
exactly the same availability counts per day; only isLocked can differ. -/
theorem statusLoop_lockedDays_congr (orgId : String) :
    ∀ (days : List CalDate) (st : ServerState) (L : List (String × List String))
      (ld1 ld2 : List String) (acc1 acc2 : List (String × DayStatus)),
      lookupM st.lockedDays orgId = some ld1 →
      lookupM L orgId = some ld2 →
      acc2.map dayCounts = acc1.map dayCounts →
      ((statusLoop orgId { st with lockedDays := L } days acc2).2.map
          (List.map dayCounts) =
        (statusLoop orgId st days acc1).2.map (List.map dayCounts)) := by
  intro days
  induction days with
  | nil =>
    intro st L ld1 ld2 acc1 acc2 h1 h2 hacc
    simp only [statusLoop, Option.map_some']
    rw [hacc]
  | cons day rest ih =>
    intro st L ld1 ld2 acc1 acc2 h1 h2 hacc
    simp only [statusLoop]
    rw [ensureDaySlots_lockedDays]
    cases he : ensureDaySlots orgId (formatYMD day) st with
    | none => rfl
    | some p =>
      obtain ⟨st1, ds0⟩ := p
      simp only [Option.map_some']
      have hfr : st1.lockedDays = st.lockedDays := by
        rcases ensureDaySlots_cases orgId (formatYMD day) st st1 ds0 he with
          ⟨hst, _⟩ | ⟨_, _, _, hld1, _, _⟩
        · rw [hst]
        · exact hld1
      have hldR : lookupM (cacheInsert st1 orgId (formatYMD day)
          (markDay st1.bookedSlots (formatYMD day) ds0)).lockedDays orgId = some ld1 := by
        show lookupM st1.lockedDays orgId = some ld1
        rw [hfr]; exact h1
      have hldL : lookupM (cacheInsert { st1 with lockedDays := L } orgId (formatYMD day)
          (markDay ({ st1 with lockedDays := L } : ServerState).bookedSlots
            (formatYMD day) ds0)).lockedDays orgId = some ld2 := by
        show lookupM L orgId = some ld2
        exact h2
      simp only [hldL, hldR]
      have hstL : cacheInsert { st1 with lockedDays := L } orgId (formatYMD day)
          (markDay ({ st1 with lockedDays := L } : ServerState).bookedSlots
            (formatYMD day) ds0) =
          { cacheInsert st1 orgId (formatYMD day)
              (markDay st1.bookedSlots (formatYMD day) ds0) with lockedDays := L } := rfl
      rw [hstL]
      refine ih _ L ld1 ld2 _ _ ?_ h2 ?_
      · show lookupM st1.lockedDays orgId = some ld1
        rw [hfr]; exact h1
      · rw [List.map_append, List.map_append, hacc]
        rfl

theorem contains_append_self (l : List String) (a : String) :
    (l ++ [a]).contains a = true := by
  induction l with
  | nil => simp
  | cons x t ih => simp [ih]

/-- With the org's settings present, GET /slots/status is the fold
`statusLoop` over the range, after the timeSlots-entry ensure step. -/
theorem slotsStatus_eq (st : ServerState) (orgId : String) (a b : CalDate)
    (h1 : (lookupM st.settings orgId).isNone = false) :
    slotsStatus st orgId a b =
      statusLoop orgId
        (if (lookupM st.timeSlots orgId).isNone = true
          then { st with timeSlots := insertM st.timeSlots orgId [] } else st)
        (eachDayOfInterval a b) [] := by
  unfold slotsStatus
  simp only [h1, Bool.false_eq_true, if_false]

/-- Core of C7 at the level of `statusLoop`: replacing the locked-days store
by one whose entry contains `date0` makes every reported entry for `date0`
carry isLocked = true and changes no availability counts. -/
theorem locked_status_core (org : String) (stE : ServerState)
    (L : List (String × List String)) (days : List CalDate) (ld ldN : List String)
    (date0 : String)
    (h1 : lookupM stE.lockedDays org = some ld)
    (h2 : lookupM L org = some ldN)
    (hcont : ldN.contains date0 = true) :
    (∀ l v, (statusLoop org { stE with lockedDays := L } days []).2 = some l →
      (date0, v) ∈ l → v.isLocked = true) ∧
    ((statusLoop org { stE with lockedDays := L } days []).2.map
        (List.map dayCounts) =
      (statusLoop org stE days []).2.map (List.map dayCounts)) := by
  constructor
  · intro l v hl hv
    have hx := statusLoop_locked org days { stE with lockedDays := L } [] ldN h2
      (fun k v hk => absurd hk (List.not_mem_nil _)) l hl date0 v hv
    rw [hcont] at hx
    exact hx
  · exact statusLoop_lockedDays_congr org days stE L ld ldN [] [] h1 h2 rfl

/-- C9: cached slot availability is monotone under status reads.  GET
/slots/status writes availability into the cached slot objects in place and
only ever sets isAvailable from true to false, never back: a cached slot
already unavailable — with no hypothesis on the booked-slots index, so in
particular after the booking occupying it has been removed — is still cached
unavailable after any further GET /slots/status for the organization (ids,
starts and ends preserved), and whatever day status that read reports for
the date counts availableSlots and totalSlots from exactly that cached
list, so the slot is reported unavailable.  Until a PUT /settings or PUT
/slots/:date replaces the cache entry this persists, since those are the
only writers besides the loop itself.  The settings-present hypothesis
excludes the unreachable state in which the route would re-initialize the
org wholesale. -/
theorem status_read_preserves_unavailable (st : ServerState) (org : String)
    (a b : CalDate) (date : String) (slots : List TimeSlot) (i : Nat) (sl : TimeSlot)
    (hset : (lookupM st.settings org).isSome = true)
    (hc : cacheLookup st org date = some slots)
    (hi : slots.get? i = some sl) (hun : sl.isAvailable = false) :
    ∃ slots' sl',
      cacheLookup (slotsStatus st org a b).1 org date = some slots' ∧
      slots'.get? i = some sl' ∧ sl'.id = sl.id ∧ sl'.start = sl.start ∧
      sl'.«end» = sl.«end» ∧ sl'.isAvailable = false ∧
      (∀ l, (slotsStatus st org a b).2 = some l → ∀ v, (date, v) ∈ l →
        v.availableSlots = countAvail slots' ∧ v.totalSlots = slots'.length) := by
  have hsetF : (lookupM st.settings org).isNone = false := by
    cases hx : lookupM st.settings org with
    | none => simp [hx] at hset
    | some _ => rfl
  have hts : (lookupM st.timeSlots org).isNone = false := by
    unfold cacheLookup at hc
    cases hx : lookupM st.timeSlots org with
    | none => rw [hx] at hc; exact Option.noConfusion hc
    | some _ => rfl
  have hss : slotsStatus st org a b = statusLoop org st (eachDayOfInterval a b) [] := by
    rw [slotsStatus_eq st org a b hsetF, hts]
    rw [if_neg (by decide)]
  rw [hss]
  obtain ⟨slots', h1, hm⟩ :=
    statusLoop_cache_mono org (eachDayOfInterval a b) st [] org date slots hc
  have hlen : i < slots'.length := by
    rw [hm.1]
    exact lt_of_get?_eq_some slots i sl hi
  obtain ⟨sl', hsl'⟩ := get?_isSome_of_lt slots' i hlen
  have hw := hm.2 i sl sl' hi hsl'
  have hfalse : sl'.isAvailable = false := by
    cases hb : sl'.isAvailable with
    | false => rfl
    | true =>
      have hcontra := hw.2.2.2 hb
      rw [hun] at hcontra
      exact Bool.noConfusion hcontra
  refine ⟨slots', sl', h1, hsl', hw.1, hw.2.1, hw.2.2.1, hfalse, ?_⟩
  intro l hl v hv
  obtain ⟨m, hm1, hm3, hm4⟩ := statusLoop_report org (eachDayOfInterval a b) st []
    (fun k v hk => absurd hk (List.not_mem_nil _)) l hl date v hv
  have hms : m = slots' := by
    have h6 := h1.symm.trans hm1
    injection h6 with h6
    exact h6.symm
  rw [← hms]
  exact ⟨hm3, hm4⟩

/-- Witness for C9 on `c9State` with a one-day range. -/
theorem status_read_preserves_unavailable_witness :
    ((lookupM c9State.settings ("org1")).isSome = true) ∧
    (cacheLookup c9State ("org1") ("2026-10-12") =
      some [{ id := "uuid-0", start := "09:00", «end» := "09:30", isAvailable := false }]) ∧
    ∃ slots' sl',
      cacheLookup (slotsStatus c9State ("org1") ⟨2026, 10, 12⟩ ⟨2026, 10, 12⟩).1
        ("org1") ("2026-10-12") = some slots' ∧
      slots'.get? 0 = some sl' ∧
      sl'.id = "uuid-0" ∧ sl'.start = "09:00" ∧ sl'.«end» = "09:30" ∧
      sl'.isAvailable = false ∧
      (∀ l, (slotsStatus c9State ("org1") ⟨2026, 10, 12⟩ ⟨2026, 10, 12⟩).2 = some l →
        ∀ v, ("2026-10-12", v) ∈ l →
        v.availableSlots = countAvail slots' ∧ v.totalSlots = slots'.length) :=
  ⟨by decide, by decide,
    status_read_preserves_unavailable c9State ("org1") ⟨2026, 10, 12⟩ ⟨2026, 10, 12⟩
      ("2026-10-12")
      [{ id := "uuid-0", start := "09:00", «end» := "09:30", isAvailable := false }] 0
      { id := "uuid-0", start := "09:00", «end» := "09:30", isAvailable := false }
      (by decide) (by decide) (by decide) (by decide)⟩

/-- C7: after PUT /locked-days/:date with isLocked = true, for an
organization whose settings and locked-days stores exist (as the routes
guarantee for any initialized organization), the route answers
(date, true); every entry for that date in a subsequent GET /slots/status
response reports isLocked = true whatever its availability counts; and the
per-day (key, availableSlots, totalSlots) triples of the whole response are
exactly those of the same read on the unlocked state — locking alters no
counts. -/
theorem lockDay_reports_locked (st : ServerState) (org date0 : String) (a b : CalDate)
    (os : OrganizationSettings) (ld : List String)
    (hset : lookupM st.settings org = some os)
    (hld : lookupM st.lockedDays org = some ld) :
    (lockDay st org date0 true).2 = some (date0, true) ∧
    (∀ l v, (slotsStatus (lockDay st org date0 true).1 org a b).2 = some l →
      (date0, v) ∈ l → v.isLocked = true) ∧
    ((slotsStatus (lockDay st org date0 true).1 org a b).2.map (List.map dayCounts) =
      (slotsStatus st org a b).2.map (List.map dayCounts)) := by
  have hlock : lockDay st org date0 true =
      ({ st with lockedDays := insertM st.lockedDays org (if ld.contains date0 = true then ld else ld ++ [date0]) },
        some (date0, true)) := by
    unfold lockDay
    rw [hld]
    rfl
  have hcont : (if ld.contains date0 = true then ld else ld ++ [date0]).contains date0 =
      true := by
    by_cases hcd : ld.contains date0 = true
    · rw [if_pos hcd]; exact hcd
    · rw [if_neg hcd]; exact contains_append_self ld date0
  rw [hlock]
  refine ⟨rfl, ?_, ?_⟩
  all_goals
    have hsetF : (lookupM st.settings org).isNone = false := by rw [hset]; rfl
    have hsetF2 : (lookupM ({ st with lockedDays := insertM st.lockedDays org (if ld.contains date0 = true then ld else ld ++ [date0]) } : ServerState).settings org).isNone = false := hsetF
    have hL2 : lookupM (insertM st.lockedDays org
        (if ld.contains date0 = true then ld else ld ++ [date0])) org =
        some (if ld.contains date0 = true then ld else ld ++ [date0]) :=
      lookupM_insertM_self _ _ _
    rw [slotsStatus_eq _ org a b hsetF2]
    have hts2 : (lookupM ({ st with lockedDays := insertM st.lockedDays org (if ld.contains date0 = true then ld else ld ++ [date0]) } : ServerState).timeSlots org).isNone =
        (lookupM st.timeSlots org).isNone := rfl
    rw [hts2]
  · -- isLocked = true for date0 entries
    by_cases hts : (lookupM st.timeSlots org).isNone = true
    · rw [if_pos hts]
      intro l v hl hv
      exact (locked_status_core org
        { st with timeSlots := insertM st.timeSlots org [] }
        (insertM st.lockedDays org
          (if ld.contains date0 = true then ld else ld ++ [date0]))
        (eachDayOfInterval a b) ld _ date0 hld hL2 hcont).1 l v hl hv
    · rw [if_neg hts]
      intro l v hl hv
      exact (locked_status_core org st
        (insertM st.lockedDays org
          (if ld.contains date0 = true then ld else ld ++ [date0]))
        (eachDayOfInterval a b) ld _ date0 hld hL2 hcont).1 l v hl hv
  · -- counts unchanged
    rw [slotsStatus_eq st org a b hsetF]
    by_cases hts : (lookupM st.timeSlots org).isNone = true
    · rw [if_pos hts, if_pos hts]
      exact (locked_status_core org
        { st with timeSlots := insertM st.timeSlots org [] }
        (insertM st.lockedDays org
          (if ld.contains date0 = true then ld else ld ++ [date0]))
        (eachDayOfInterval a b) ld _ date0 hld hL2 hcont).2
    · rw [if_neg hts, if_neg hts]
      exact (locked_status_core org st
        (insertM st.lockedDays org
          (if ld.contains date0 = true then ld else ld ++ [date0]))
        (eachDayOfInterval a b) ld _ date0 hld hL2 hcont).2

/-- Witness for C7: locking 2026-10-12 for a freshly initialized org1 and
reading the status of that single day. -/
theorem lockDay_reports_locked_witness :
    (lookupM (initOrganizationSettings emptyState ("org1")).settings ("org1") =
      some defaultSettings) ∧
    (lookupM (initOrganizationSettings emptyState ("org1")).lockedDays ("org1") =
      some []) ∧
    ((lockDay (initOrganizationSettings emptyState ("org1")) ("org1") ("2026-10-12")
        true).2 = some ("2026-10-12", true) ∧
     (∀ l v, (slotsStatus (lockDay (initOrganizationSettings emptyState ("org1"))
          ("org1") ("2026-10-12") true).1 ("org1") ⟨2026, 10, 12⟩ ⟨2026, 10, 12⟩).2 =
            some l →
        ("2026-10-12", v) ∈ l → v.isLocked = true) ∧
     ((slotsStatus (lockDay (initOrganizationSettings emptyState ("org1"))
          ("org1") ("2026-10-12") true).1 ("org1") ⟨2026, 10, 12⟩ ⟨2026, 10, 12⟩).2.map
            (List.map dayCounts) =
      (slotsStatus (initOrganizationSettings emptyState ("org1"))
          ("org1") ⟨2026, 10, 12⟩ ⟨2026, 10, 12⟩).2.map (List.map dayCounts))) :=
  ⟨by decide, by decide,
    lockDay_reports_locked (initOrganizationSettings emptyState ("org1")) ("org1")
      ("2026-10-12") ⟨2026, 10, 12⟩ ⟨2026, 10, 12⟩ defaultSettings []
      (by decide) (by decide)⟩

end AMS
